import Mathlib

/-!
Shallow embedding of the graph service repository layer
(src/graph_service/repository.py) together with the semantics of the
Cypher statements it issues against the backing Neo4j store.

The store is modelled as lists of nodes and relationships carrying
property maps (association lists).  Each repository method becomes a
pure function from a store state (plus the method arguments) to the new
store state and the returned payload.  The nondeterministic uuid
generated inside create_edge is passed in as an explicit argument.
-/

/-- A property value stored in the graph (string / numeric / boolean). -/
inductive Value where
  | str : String → Value
  | num : Rat → Value
  | bool : Bool → Value
deriving DecidableEq

/-- Property maps are association lists keyed by strings. -/
abbrev Props := List (String × Value)

/-- First binding of a key in a property map. -/
def getProp (ps : Props) (k : String) : Option Value :=
  (ps.find? (fun kv => kv.1 = k)).map (fun kv => kv.2)

/-- Set one property: overwrite the first binding in place, else append. -/
def setProp (ps : Props) (k : String) (v : Value) : Props :=
  match ps with
  | [] => [(k, v)]
  | kv :: rest => if kv.1 = k then (k, v) :: rest else kv :: setProp rest k v

/-- Semantics of Cypher `SET n += $m`: each binding of `m` is set in turn. -/
def mergeProps (ps qs : Props) : Props :=
  qs.foldl (fun acc kv => setProp acc kv.1 kv.2) ps

/-- A stored node: internal id, label list, property map. -/
structure Node where
  nid : Nat
  labels : List String
  props : Props
deriving DecidableEq

/-- The `id` property of a node, when present and a string. -/
def Node.idProp (n : Node) : Option String :=
  match getProp n.props "id" with
  | some (Value.str s) => some s
  | _ => none

/-- The `id` property as a plain string (well-formed stores always have one). -/
def Node.idString (n : Node) : String := n.idProp.getD ""

/-- A stored relationship: internal id, endpoint internal ids, type, properties. -/
structure Relationship where
  rid : Nat
  startNid : Nat
  endNid : Nat
  type : String
  props : Props
deriving DecidableEq

/-- The `id` property of a relationship, when present and a string. -/
def Relationship.idProp (r : Relationship) : Option String :=
  match getProp r.props "id" with
  | some (Value.str s) => some s
  | _ => none

/-- The whole store: nodes, relationships and fresh internal-id counters. -/
structure Store where
  nodes : List Node
  rels : List Relationship
  nextNid : Nat
  nextRid : Nat
deriving DecidableEq

/-- The empty store. -/
def Store.empty : Store := ⟨[], [], 0, 0⟩

/-- Resolve an internal node id (as `startNode(r)` / `endNode(r)` do). -/
def Store.lookupNid (st : Store) (i : Nat) : Option Node :=
  st.nodes.find? (fun n => n.nid = i)

/-- Well-formedness maintained by the store: distinct internal ids, every
relationship endpoint resolvable, every node carrying a string `id`. -/
structure WFStore (st : Store) : Prop where
  nidNodup : (st.nodes.map Node.nid).Nodup
  endpoints : ∀ r ∈ st.rels,
    (∃ a ∈ st.nodes, a.nid = r.startNid) ∧ (∃ b ∈ st.nodes, b.nid = r.endNid)
  hasId : ∀ n ∈ st.nodes, ∃ s, n.idProp = some s

/-! ### Response schemas (src/graph_service/schemas.py) -/

structure NodeResponse where
  id : String
  label : String
  properties : Props
deriving DecidableEq

structure EdgeResponse where
  id : Option String
  source : String
  target : String
  type : String
  weight : Option Rat
deriving DecidableEq

structure GraphSearchResponse where
  nodes : List NodeResponse
  relationships : List EdgeResponse
deriving DecidableEq

structure EdgeUpdate where
  type : Option String
  weight : Option Rat

structure CreateNodeResult where
  status : String
  id : String
deriving DecidableEq

structure CreateEdgeResult where
  status : String
  id : String
  source : String
  target : String
deriving DecidableEq

structure UpdateEdgeResult where
  id : String
  source : String
  target : String
  type : String
  weight : Rat
  status : String
deriving DecidableEq

structure DeleteResult where
  status : String
  id : String
deriving DecidableEq

/-! ### The label sanitizer (repository.py, `_sanitize_label`) -/

/-- The backtick delimiter character. -/
def backtick : Char := Char.ofNat 96

/-- Python `label.replace(backtick, two backticks)` over the character list. -/
def escapeBackticks : List Char → List Char
  | [] => []
  | c :: cs =>
    if c = backtick then backtick :: backtick :: escapeBackticks cs
    else c :: escapeBackticks cs

/-- Embedding of `_sanitize_label`: wrap in backticks, escaping inner backticks by doubling. -/
def sanitize_label (label : String) : String :=
  String.mk (backtick :: escapeBackticks label.data ++ [backtick])

/-- Inverse reading of the escaped form: collapse doubled backticks. -/
def unescapeBackticks : List Char → List Char
  | [] => []
  | [c] => [c]
  | c :: c2 :: cs =>
    if c = backtick ∧ c2 = backtick then backtick :: unescapeBackticks cs
    else c :: unescapeBackticks (c2 :: cs)

/-! ### Node operations -/

/-- Embedding of `create_node`: Cypher `MERGE (n:LABEL {id: $id}) SET n += $properties`.
`MERGE` matches every node carrying the label and the id property; when
none matches it creates a fresh node with exactly that label and id, and
`SET += ` then folds the supplied properties in. -/
def create_node (st : Store) (id label : String) (properties : Props) :
    Store × CreateNodeResult :=
  let hit := st.nodes.any (fun n => n.labels.contains label ∧ n.idProp = some id)
  let st2 :=
    if hit then
      { st with nodes := st.nodes.map (fun n =>
          if n.labels.contains label ∧ n.idProp = some id then
            { n with props := mergeProps n.props properties }
          else n) }
    else
      { st with
        nodes := st.nodes ++
          [{ nid := st.nextNid, labels := [label],
             props := mergeProps [("id", Value.str id)] properties }],
        nextNid := st.nextNid + 1 }
  (st2, { status := "created", id := id })

/-- Embedding of `get_node`: Cypher `MATCH (n {id: $id}) RETURN n, labels(n)`, first record;
label is the first of the node, defaulting to "Unknown"; properties are the
node's map without the `id` key. -/
def get_node (st : Store) (node_id : String) : Option NodeResponse :=
  match st.nodes.find? (fun n => n.idProp = some node_id) with
  | some n =>
    some { id := n.idString,
           label := n.labels.headD "Unknown",
           properties := n.props.filter (fun kv => kv.1 ≠ "id") }
  | none => none

/-- Embedding of `delete_node`: Cypher `MATCH (n {id: $id}) DETACH DELETE n` — removes
every matching node and every relationship touching one; always reports
deleted. -/
def delete_node (st : Store) (node_id : String) : Store × DeleteResult :=
  let victims := st.nodes.filter (fun n => n.idProp = some node_id)
  ({ st with
     nodes := st.nodes.filter (fun n => ¬ n.idProp = some node_id),
     rels := st.rels.filter (fun r =>
       ¬ victims.any (fun n => n.nid = r.startNid ∨ n.nid = r.endNid)) },
   { status := "deleted", id := node_id })

/-! ### Edge operations -/

/-- Embedding of `create_edge`: Cypher
`MATCH (a {id:$s}) MATCH (b {id:$t}) MERGE (a)-[r:TY]->(b)
 SET r.weight = $weight, r.id = $edge_id RETURN r.id`.
The uuid generated inside the Python function is the explicit `edge_id`
argument.  Each (a, b) row merges the relationship: existing ones get
their weight and id overwritten, a missing one is created.  With zero
rows nothing happens, yet the call still reports "created". -/
def create_edge (st : Store) (source_id target_id ty : String)
    (weight : Rat) (edge_id : String) : Store × CreateEdgeResult :=
  let srcs := st.nodes.filter (fun n => n.idProp = some source_id)
  let tgts := st.nodes.filter (fun n => n.idProp = some target_id)
  let pairs := srcs.flatMap (fun a => tgts.map (fun b => (a, b)))
  let st2 := pairs.foldl (fun acc ab =>
    if acc.rels.any (fun r =>
        r.startNid = ab.1.nid ∧ r.endNid = ab.2.nid ∧ r.type = ty) then
      { acc with rels := acc.rels.map (fun r =>
          if r.startNid = ab.1.nid ∧ r.endNid = ab.2.nid ∧ r.type = ty then
            { r with props :=
                (setProp (setProp r.props "weight" (Value.num weight))
                  "id" (Value.str edge_id)) }
          else r) }
    else
      { acc with
        rels := acc.rels ++
          [{ rid := acc.nextRid, startNid := ab.1.nid, endNid := ab.2.nid,
             type := ty,
             props := [("weight", Value.num weight), ("id", Value.str edge_id)] }],
        nextRid := acc.nextRid + 1 }) st
  (st2, { status := "created", id := edge_id,
          source := source_id, target := target_id })

/-- Embedding of `update_edge`: only a supplied weight produces a SET clause (a supplied
type is ignored); with no SET clause the function returns None before
querying; otherwise Cypher
`MATCH ()-[r]-() WHERE r.id = $edge_id SET r.weight = $w RETURN ...`
runs, returning None again when no relationship matches. -/
def update_edge (st : Store) (edge_id : String) (upd : EdgeUpdate) :
    Store × Option UpdateEdgeResult :=
  match upd.weight with
  | none => (st, none)
  | some w =>
    match st.rels.find? (fun r => r.idProp = some edge_id) with
    | none => (st, none)
    | some r =>
      ({ st with rels := st.rels.map (fun r2 =>
          if r2.idProp = some edge_id then
            { r2 with props := setProp r2.props "weight" (Value.num w) }
          else r2) },
       some { id := edge_id,
              source := ((st.lookupNid r.startNid).bind Node.idProp).getD "",
              target := ((st.lookupNid r.endNid).bind Node.idProp).getD "",
              type := r.type, weight := w, status := "updated" })

/-- Embedding of `delete_edge`: Cypher `MATCH ()-[r]-() WHERE r.id = $edge_id DELETE r`;
always reports deleted. -/
def delete_edge (st : Store) (edge_id : String) : Store × DeleteResult :=
  ({ st with rels := st.rels.filter (fun r => ¬ r.idProp = some edge_id) },
   { status := "deleted", id := edge_id })

/-! ### Neighborhood search (repository.py, `search_graph`)

The Python method runs a first query whose assembled value is discarded
and rebuilt; only the second query block (with explicit
`startNode(r).id` / `endNode(r).id` columns) determines the returned
response, so that block is what is embedded here. -/

/-- One row of `MATCH (start {id:$sid})-[r]-(neighbor)
RETURN start, r, neighbor, startNode(r).id, endNode(r).id`. -/
structure Row where
  start : Node
  neighbor : Node
  rtype : String
  source_id : String
  target_id : String
deriving DecidableEq

/-- All rows of the undirected one-hop match, before the LIMIT:
for each node bound to `start`, each incident relationship yields one
row whose `neighbor` is the opposite endpoint, and whose source/target
columns are resolved from the store's own start/end of the relationship. -/
def search_rows (st : Store) (start_id : String) : List Row :=
  (st.nodes.filter (fun n => n.idProp = some start_id)).flatMap (fun s =>
    (st.rels.filter (fun r => r.startNid = s.nid ∨ r.endNid = s.nid)).filterMap
      (fun r =>
        (st.lookupNid (if r.startNid = s.nid then r.endNid else r.startNid)).map
          (fun nbr =>
            { start := s, neighbor := nbr, rtype := r.type,
              source_id := if r.startNid = s.nid then s.idString else nbr.idString,
              target_id := if r.startNid = s.nid then nbr.idString else s.idString })))

/-- NodeResponse built from a sighted node: first label or "Unknown",
properties without the `id` key. -/
def nodeToResponse (n : Node) : NodeResponse :=
  { id := n.idString,
    label := n.labels.headD "Unknown",
    properties := n.props.filter (fun kv => kv.1 ≠ "id") }

/-- Register a sighted node in the deduplicating map (first occurrence wins,
append at the end — Python dict insertion order). -/
def insertNodeResp (acc : List NodeResponse) (n : Node) : List NodeResponse :=
  if acc.any (fun nr => nr.id = n.idString) then acc
  else acc ++ [nodeToResponse n]

/-- The EdgeResponse recorded for one row. -/
def rowToEdge (row : Row) : EdgeResponse :=
  { id := none, source := row.source_id, target := row.target_id,
    type := row.rtype, weight := none }

/-- The per-row assembly loop of `search_graph`. -/
def assembleRows (rows : List Row) : GraphSearchResponse :=
  { nodes := rows.foldl
      (fun acc row => insertNodeResp (insertNodeResp acc row.start) row.neighbor)
      [],
    relationships := rows.map rowToEdge }

set_option linter.unusedVariables false in
/-- Embedding of `search_graph`: run the one-hop query (LIMIT 50); with no records fall
back to `get_node` on the start identifier; otherwise assemble the rows.
The `depth` argument is accepted but never used, exactly as in the source. -/
def search_graph (st : Store) (start_id : String) (depth : Nat) :
    GraphSearchResponse :=
  let records := (search_rows st start_id).take 50
  if records.isEmpty then
    match get_node st start_id with
    | some nr => { nodes := [nr], relationships := [] }
    | none => { nodes := [], relationships := [] }
  else assembleRows records

/-! ### Property-map lemmas -/

lemma getProp_cons (k0 : String) (v0 : Value) (rest : Props) (k : String) :
    getProp ((k0, v0) :: rest) k = if k0 = k then some v0 else getProp rest k := by
  by_cases h : k0 = k <;> simp [getProp, List.find?_cons, h]

lemma getProp_setProp_self (ps : Props) (k : String) (v : Value) :
    getProp (setProp ps k v) k = some v := by
  induction ps with
  | nil => simp [setProp, getProp, List.find?_cons]
  | cons kv rest ih =>
    by_cases h : kv.1 = k
    · simp [setProp, h, getProp, List.find?_cons]
    · simp only [setProp, if_neg h]
      rw [getProp_cons, if_neg h, ih]

lemma getProp_setProp_ne (ps : Props) (k k2 : String) (v : Value) (h : k2 ≠ k) :
    getProp (setProp ps k v) k2 = getProp ps k2 := by
  have hne : k ≠ k2 := fun hh => h hh.symm
  induction ps with
  | nil =>
    show getProp [(k, v)] k2 = getProp [] k2
    rw [getProp_cons, if_neg hne]
  | cons kv rest ih =>
    obtain ⟨k0, v0⟩ := kv
    by_cases hk : k0 = k
    · simp only [setProp, if_pos hk]
      rw [getProp_cons, getProp_cons, if_neg hne, hk, if_neg hne]
    · simp only [setProp, if_neg hk]
      rw [getProp_cons, getProp_cons, ih]

lemma getProp_eq_none (ps : Props) (k : String) (h : k ∉ ps.map Prod.fst) :
    getProp ps k = none := by
  induction ps with
  | nil => simp [getProp]
  | cons kv rest ih =>
    simp only [List.map_cons, List.mem_cons] at h
    push_neg at h
    rw [show kv = (kv.1, kv.2) from rfl, getProp_cons, if_neg (fun hh => h.1 hh.symm)]
    exact ih h.2

lemma getProp_mergeProps_notMem (ps qs : Props) (k : String)
    (h : k ∉ qs.map Prod.fst) : getProp (mergeProps ps qs) k = getProp ps k := by
  induction qs generalizing ps with
  | nil => simp [mergeProps]
  | cons kv rest ih =>
    simp only [List.map_cons, List.mem_cons] at h
    push_neg at h
    show getProp (mergeProps (setProp ps kv.1 kv.2) rest) k = getProp ps k
    rw [ih _ h.2, getProp_setProp_ne _ _ _ _ (fun hh => h.1 hh)]

lemma getProp_mergeProps_mem (ps qs : Props) (k : String) (v : Value)
    (hq : (qs.map Prod.fst).Nodup) (hv : getProp qs k = some v) :
    getProp (mergeProps ps qs) k = some v := by
  induction qs generalizing ps with
  | nil => simp [getProp] at hv
  | cons kv rest ih =>
    obtain ⟨k0, v0⟩ := kv
    simp only [List.map_cons, List.nodup_cons] at hq
    rw [getProp_cons] at hv
    show getProp (mergeProps (setProp ps k0 v0) rest) k = some v
    by_cases hk : k0 = k
    · rw [if_pos hk] at hv
      subst hk
      have hrest : k0 ∉ rest.map Prod.fst := hq.1
      rw [getProp_mergeProps_notMem _ _ _ hrest, getProp_setProp_self ps k0 v0]
      exact hv
    · rw [if_neg hk] at hv
      exact ih _ hq.2 hv

/-! ### Sanitizer lemmas -/

lemma escapeBackticks_eq_flatMap (l : List Char) :
    escapeBackticks l =
      l.flatMap (fun c => if c = backtick then [backtick, backtick] else [c]) := by
  induction l with
  | nil => rfl
  | cons c cs ih =>
    by_cases h : c = backtick <;> simp [escapeBackticks, h, ih]

lemma unescape_escape (l : List Char) :
    unescapeBackticks (escapeBackticks l) = l := by
  induction l with
  | nil => rfl
  | cons c cs ih =>
    by_cases h : c = backtick
    · subst h
      simpa [escapeBackticks, unescapeBackticks] using ih
    · rw [escapeBackticks, if_neg h]
      cases he : escapeBackticks cs with
      | nil =>
        cases cs with
        | nil => simp [unescapeBackticks]
        | cons d ds =>
          exfalso
          rw [escapeBackticks] at he
          by_cases hd : d = backtick <;> simp [hd] at he
      | cons e es =>
        rw [unescapeBackticks, if_neg (fun hh => h hh.1), ← he, ih]

lemma count_escape (l : List Char) :
    (escapeBackticks l).count backtick = 2 * l.count backtick := by
  induction l with
  | nil => rfl
  | cons c cs ih =>
    by_cases h : c = backtick
    · subst h
      simp [escapeBackticks, List.count_cons, ih, Nat.mul_add]
    · simp [escapeBackticks, h, List.count_cons, ih]

/-- C5: `_sanitize_label` is a total pure function on all strings, the
empty string included: its output is the input wrapped in one backtick
delimiter pair, every backtick occurring inside the input having been
escaped by doubling it (each input character maps to itself or, for the
delimiter, to two copies; backtick count doubles; the escaping is
lossless, hence injective), and being a total function it raises no
error for any input. -/
theorem sanitize_label_spec (s : String) :
    (sanitize_label s).data = backtick :: (escapeBackticks s.data ++ [backtick])
    ∧ escapeBackticks s.data =
        s.data.flatMap (fun c => if c = backtick then [backtick, backtick] else [c])
    ∧ unescapeBackticks (escapeBackticks s.data) = s.data
    ∧ (escapeBackticks s.data).count backtick = 2 * s.data.count backtick := by
  exact ⟨rfl, escapeBackticks_eq_flatMap s.data, unescape_escape s.data,
    count_escape s.data⟩

/-! ### Depth and result bound -/

/-- C4: for every start identifier and every depth value the result of
`search_graph` is identical to the result at depth 1 (the parameter is
accepted but has no effect), and the relationship list never holds more
than 50 entries. -/
theorem search_graph_depth_unused_and_capped (st : Store) (start_id : String)
    (d : Nat) :
    search_graph st start_id d = search_graph st start_id 1
    ∧ (search_graph st start_id d).relationships.length ≤ 50 := by
  refine ⟨rfl, ?_⟩
  unfold search_graph
  by_cases h : ((search_rows st start_id).take 50).isEmpty
  · simp only [h, if_true]
    cases get_node st start_id <;> simp
  · simp only [h, Bool.false_eq_true, if_false, assembleRows, List.length_map]
    exact List.length_take_le _ _

/-! ### Lenient handling of missing targets -/

/-- C9: operations addressing missing targets report success and leave the
store unchanged: create_edge with an absent endpoint still answers
"created" though nothing is created; delete_edge on an unknown edge
identifier and delete_node on an unknown node identifier still answer
"deleted" though nothing is removed. -/
theorem missing_targets_report_success (st1 st2 st3 : Store)
    (sA sB ty u eid nid2 : String) (w : Rat)
    (h1 : (∀ n ∈ st1.nodes, ¬ n.idProp = some sA) ∨
          (∀ n ∈ st1.nodes, ¬ n.idProp = some sB))
    (h2 : ∀ r ∈ st2.rels, ¬ r.idProp = some eid)
    (h3 : ∀ n ∈ st3.nodes, ¬ n.idProp = some nid2) :
    create_edge st1 sA sB ty w u =
      (st1, { status := "created", id := u, source := sA, target := sB })
    ∧ delete_edge st2 eid = (st2, { status := "deleted", id := eid })
    ∧ delete_node st3 nid2 = (st3, { status := "deleted", id := nid2 }) := by
  refine ⟨?_, ?_, ?_⟩
  · unfold create_edge
    rcases h1 with h | h
    · have hs : st1.nodes.filter (fun n => n.idProp = some sA) = [] := by
        rw [List.filter_eq_nil_iff]
        intro n hn
        simpa using h n hn
      simp [hs]
    · have ht : st1.nodes.filter (fun n => n.idProp = some sB) = [] := by
        rw [List.filter_eq_nil_iff]
        intro n hn
        simpa using h n hn
      simp only [create_edge, ht, List.map_nil]
      rw [List.flatMap_eq_nil_iff.mpr (fun x hx => rfl)]
      rfl
  · unfold delete_edge
    have hf : st2.rels.filter (fun r => ¬ r.idProp = some eid) = st2.rels := by
      rw [List.filter_eq_self]
      intro r hr
      simpa using h2 r hr
    rw [hf]
  · unfold delete_node
    have hv : st3.nodes.filter (fun n => n.idProp = some nid2) = [] := by
      rw [List.filter_eq_nil_iff]
      intro n hn
      simpa using h3 n hn
    rw [hv]
    have hn : st3.nodes.filter (fun n => ¬ n.idProp = some nid2) = st3.nodes := by
      rw [List.filter_eq_self]
      intro n hn2
      simpa using h3 n hn2
    rw [hn]
    simp

/-- Witness for C9 at a concrete store: one node "x" and no relationships;
creating an edge to the absent node "y", deleting the absent edge "e" and
deleting the absent node "z" all report success and leave the store as is. -/
theorem missing_targets_report_success_witness :
    let stw : Store := ⟨[⟨0, ["L"], [("id", Value.str "x")]⟩], [], 1, 0⟩
    create_edge stw "x" "y" "T" 1 "u" =
      (stw, { status := "created", id := "u", source := "x", target := "y" })
    ∧ delete_edge stw "e" = (stw, { status := "deleted", id := "e" })
    ∧ delete_node stw "z" = (stw, { status := "deleted", id := "z" }) := by
  intro stw
  exact missing_targets_report_success stw stw stw "x" "y" "T" "u" "e" "z" 1
    (Or.inr (by decide)) (by decide) (by decide)

/-! ### Node re-creation (create_node on an existing identifier) -/

lemma getProp_eq_none_iff (ps : Props) (k : String) :
    getProp ps k = none ↔ k ∉ ps.map Prod.fst := by
  induction ps with
  | nil => simp [getProp]
  | cons kv rest ih =>
    obtain ⟨k0, v0⟩ := kv
    rw [getProp_cons]
    by_cases h : k0 = k
    · subst h
      simp
    · rw [if_neg h, ih]
      simp only [List.map_cons, List.mem_cons]
      constructor
      · intro hk hc
        rcases hc with he | hm
        · exact h he.symm
        · exact hk hm
      · intro hc hm
        exact hc (Or.inr hm)

/-- C6 counterexample: re-creating the identifier "a" under a different
label duplicates the node instead of merging — the MERGE pattern carries
the label, so a second label never matches the first node.  After
`create_node "a" "L1"` followed by `create_node "a" "L2"` the store holds
two nodes with identifier "a", contradicting "exactly one node". -/
theorem create_node_second_label_duplicates :
    (((create_node (create_node Store.empty "a" "L1" []).1 "a" "L2" []).1).nodes.filter
        (fun n => n.idProp = some "a")).length = 2
    ∧ ¬ ((((create_node (create_node Store.empty "a" "L1" []).1 "a" "L2" []).1).nodes.filter
        (fun n => n.idProp = some "a")).length = 1) := by
  constructor <;> decide

/-- C6 (amended): calling create_node a second time with the same
identifier AND the same label yields exactly one node with that
identifier, whose properties are the second call's bindings merged over
the first call's: keys supplied by the later call overwrite, keys set
only by the earlier call persist. -/
theorem create_node_same_id_same_label_merges (st : Store) (X L : String)
    (p1 p2 : Props)
    (hnone : ∀ n ∈ st.nodes, ¬ n.idProp = some X)
    (hid1 : "id" ∉ p1.map Prod.fst) (hid2 : "id" ∉ p2.map Prod.fst)
    (hnd2 : (p2.map Prod.fst).Nodup) :
    ((create_node (create_node st X L p1).1 X L p2).1).nodes.filter
        (fun n => n.idProp = some X)
      = [⟨st.nextNid, [L],
          mergeProps (mergeProps [("id", Value.str X)] p1) p2⟩]
    ∧ (∀ k v, getProp p2 k = some v →
        getProp (mergeProps (mergeProps [("id", Value.str X)] p1) p2) k = some v)
    ∧ (∀ k, getProp p2 k = none →
        getProp (mergeProps (mergeProps [("id", Value.str X)] p1) p2) k
          = getProp (mergeProps [("id", Value.str X)] p1) k) := by
  set base := mergeProps [("id", Value.str X)] p1 with hbase
  have hbaseId : getProp base "id" = some (Value.str X) := by
    rw [hbase, getProp_mergeProps_notMem _ _ _ hid1, getProp_cons, if_pos rfl]
  set n0 : Node := ⟨st.nextNid, [L], base⟩ with hn0
  have hn0id : n0.idProp = some X := by
    rw [Node.idProp]
    simp only [hn0]
    rw [hbaseId]
  have hfinalId : getProp (mergeProps base p2) "id" = some (Value.str X) := by
    rw [getProp_mergeProps_notMem _ _ _ hid2, hbaseId]
  have hhit1 : (st.nodes.any fun n =>
      decide (n.labels.contains L = true ∧ n.idProp = some X)) = false := by
    rw [List.any_eq_false]
    intro n hn
    simp only [decide_eq_true_eq, not_and]
    exact fun _ => hnone n hn
  have hst1 : (create_node st X L p1).1 = { st with
      nodes := st.nodes ++ [n0], nextNid := st.nextNid + 1 } := by
    simp only [create_node, hhit1, Bool.false_eq_true, if_false]
  refine ⟨?_, ?_, ?_⟩
  · have hhit2 : ((st.nodes ++ [n0]).any fun n =>
        decide (n.labels.contains L = true ∧ n.idProp = some X)) = true := by
      simp [List.any_append, List.any_cons, hn0id, hn0]
    rw [hst1]
    simp only [create_node, hhit2, if_true]
    rw [List.map_append, List.filter_append]
    have hleft : ((st.nodes.map fun n =>
        if n.labels.contains L = true ∧ n.idProp = some X then
          { n with props := mergeProps n.props p2 } else n).filter
            (fun n => n.idProp = some X)) = [] := by
      rw [List.filter_eq_nil_iff]
      intro y hy
      rw [List.mem_map] at hy
      obtain ⟨n, hn, rfl⟩ := hy
      rw [if_neg (fun hc => hnone n hn hc.2)]
      simpa using hnone n hn
    rw [hleft]
    have hupd : (if n0.labels.contains L = true ∧ n0.idProp = some X then
        { n0 with props := mergeProps n0.props p2 } else n0)
          = ⟨st.nextNid, [L], mergeProps base p2⟩ := by
      rw [if_pos ⟨by simp [hn0, List.contains_cons], hn0id⟩]
    have hidfinal : (Node.idProp ⟨st.nextNid, [L], mergeProps base p2⟩) = some X := by
      rw [Node.idProp]
      simp only
      rw [hfinalId]
    simp only [List.map_cons, List.map_nil, hupd]
    rw [List.nil_append]
    simp [List.filter, hidfinal]
  · intro k v hv
    exact getProp_mergeProps_mem base p2 k v hnd2 hv
  · intro k hk
    exact getProp_mergeProps_notMem base p2 k ((getProp_eq_none_iff p2 k).mp hk)

/-- Witness for C6 at a concrete input: create node "a" label "P" with
property x, re-create with property y; exactly one node with identifier
"a" remains, carrying id, x and y. -/
theorem create_node_same_id_same_label_merges_witness :
    ((create_node (create_node Store.empty "a" "P" [("x", Value.num 1)]).1
        "a" "P" [("y", Value.str "b")]).1).nodes.filter
        (fun n => n.idProp = some "a")
      = [⟨0, ["P"],
          mergeProps (mergeProps [("id", Value.str "a")] [("x", Value.num 1)])
            [("y", Value.str "b")]⟩] := by
  exact (create_node_same_id_same_label_merges Store.empty "a" "P"
    [("x", Value.num 1)] [("y", Value.str "b")]
    (by intro n hn; simp [Store.empty] at hn) (by decide) (by decide) (by decide)).1

/-! ### Edge re-creation (create_edge idempotence) -/

lemma map_eq_self_of {α : Type} (l : List α) (f : α → α) (h : ∀ a ∈ l, f a = a) :
    l.map f = l := by
  have h2 : l.map f = l.map id := List.map_congr_left h
  rw [h2, List.map_id]

/-- C7 counterexample: after creating the edge a→b of type T, an identical
second create_edge call does NOT leave the store unchanged — the second
call overwrites the relationship's `id` property with its freshly
generated identifier, so the state after the second call differs from the
state after the first. -/
theorem create_edge_repeat_changes_state :
    let st0 : Store := ⟨[⟨0, ["L"], [("id", Value.str "a")]⟩,
                        ⟨1, ["L"], [("id", Value.str "b")]⟩], [], 2, 0⟩
    let st1 := (create_edge st0 "a" "b" "T" 1 "u1").1
    let st2 := (create_edge st1 "a" "b" "T" 1 "u2").1
    st2 ≠ st1
    ∧ st1.rels.map Relationship.idProp = [some "u1"]
    ∧ st2.rels.map Relationship.idProp = [some "u2"] := by
  refine ⟨?_, ?_, ?_⟩ <;> decide

lemma create_edge_new (st : Store) (A B T u : String) (w : Rat) (a b : Node)
    (ha : st.nodes.filter (fun n => n.idProp = some A) = [a])
    (hb : st.nodes.filter (fun n => n.idProp = some B) = [b])
    (hnone : (st.rels.any fun r =>
      decide (r.startNid = a.nid ∧ r.endNid = b.nid ∧ r.type = T)) = false) :
    (create_edge st A B T w u).1 = { st with
      rels := st.rels ++ [⟨st.nextRid, a.nid, b.nid, T,
        [("weight", Value.num w), ("id", Value.str u)]⟩],
      nextRid := st.nextRid + 1 } := by
  simp only [create_edge, ha, hb, List.flatMap_cons, List.map_cons, List.map_nil,
    List.flatMap_nil, List.append_nil, List.foldl_cons, List.foldl_nil, hnone,
    Bool.false_eq_true, if_false]

lemma create_edge_existing (st : Store) (A B T u : String) (w : Rat) (a b : Node)
    (ha : st.nodes.filter (fun n => n.idProp = some A) = [a])
    (hb : st.nodes.filter (fun n => n.idProp = some B) = [b])
    (hsome : (st.rels.any fun r =>
      decide (r.startNid = a.nid ∧ r.endNid = b.nid ∧ r.type = T)) = true) :
    (create_edge st A B T w u).1 = { st with
      rels := st.rels.map (fun r =>
        if r.startNid = a.nid ∧ r.endNid = b.nid ∧ r.type = T then
          { r with props := (setProp (setProp r.props "weight" (Value.num w))
              "id" (Value.str u)) }
        else r) } := by
  simp only [create_edge, ha, hb, List.flatMap_cons, List.map_cons, List.map_nil,
    List.flatMap_nil, List.append_nil, List.foldl_cons, List.foldl_nil, hsome,
    if_true]

/-- C7 (amended): a repeated identical create_edge call merges instead of
duplicating — afterwards there is still exactly one directed edge
(a)-[T]->(b), with the same endpoints, type and weight — but the store
state is not unchanged: the relationship's `id` property is overwritten
with the second call's freshly generated identifier. -/
theorem create_edge_repeat_merges_but_rewrites_id (st : Store)
    (A B T u1 u2 : String) (w : Rat) (a b : Node)
    (ha : st.nodes.filter (fun n => n.idProp = some A) = [a])
    (hb : st.nodes.filter (fun n => n.idProp = some B) = [b])
    (hnor : ∀ r ∈ st.rels, ¬ (r.startNid = a.nid ∧ r.endNid = b.nid ∧ r.type = T)) :
    ((create_edge st A B T w u1).1).rels
      = st.rels ++ [⟨st.nextRid, a.nid, b.nid, T,
          [("weight", Value.num w), ("id", Value.str u1)]⟩]
    ∧ ((create_edge (create_edge st A B T w u1).1 A B T w u2).1).rels
      = st.rels ++ [⟨st.nextRid, a.nid, b.nid, T,
          [("weight", Value.num w), ("id", Value.str u2)]⟩]
    ∧ ((create_edge (create_edge st A B T w u1).1 A B T w u2).1).nodes
      = ((create_edge st A B T w u1).1).nodes
    ∧ ((create_edge (create_edge st A B T w u1).1 A B T w u2).1).nextRid
      = ((create_edge st A B T w u1).1).nextRid := by
  have hany1 : (st.rels.any fun r =>
      decide (r.startNid = a.nid ∧ r.endNid = b.nid ∧ r.type = T)) = false := by
    rw [List.any_eq_false]
    intro r hr
    simpa using hnor r hr
  have hst1 := create_edge_new st A B T u1 w a b ha hb hany1
  have ha1 : ((create_edge st A B T w u1).1).nodes.filter
      (fun n => n.idProp = some A) = [a] := by
    rw [hst1]
    exact ha
  have hb1 : ((create_edge st A B T w u1).1).nodes.filter
      (fun n => n.idProp = some B) = [b] := by
    rw [hst1]
    exact hb
  have hany2 : (((create_edge st A B T w u1).1).rels.any fun r =>
      decide (r.startNid = a.nid ∧ r.endNid = b.nid ∧ r.type = T)) = true := by
    rw [hst1]
    simp [List.any_append]
  have hst2 := create_edge_existing (create_edge st A B T w u1).1 A B T u2 w a b
    ha1 hb1 hany2
  refine ⟨by rw [hst1], ?_, ?_, ?_⟩
  · rw [hst2]
    show ((create_edge st A B T w u1).1).rels.map _ = _
    rw [hst1]
    show (st.rels ++ _).map _ = _
    rw [List.map_append]
    have hleft : (st.rels.map fun r =>
        if r.startNid = a.nid ∧ r.endNid = b.nid ∧ r.type = T then
          { r with props := (setProp (setProp r.props "weight" (Value.num w))
              "id" (Value.str u2)) }
        else r) = st.rels := by
      apply map_eq_self_of
      intro r hr
      rw [if_neg (hnor r hr)]
    rw [hleft]
    simp [setProp]
  · rw [hst2]
  · rw [hst2]

/-- Witness for C7 (amended) at the concrete two-node store. -/
theorem create_edge_repeat_merges_but_rewrites_id_witness :
    let st0 : Store := ⟨[⟨0, ["L"], [("id", Value.str "a")]⟩,
                        ⟨1, ["L"], [("id", Value.str "b")]⟩], [], 2, 0⟩
    ((create_edge (create_edge st0 "a" "b" "T" 1 "u1").1 "a" "b" "T" 1 "u2").1).rels
      = st0.rels ++ [⟨st0.nextRid, 0, 1, "T",
          [("weight", Value.num 1), ("id", Value.str "u2")]⟩] := by
  intro st0
  exact (create_edge_repeat_merges_but_rewrites_id st0 "a" "b" "T" "u1" "u2" 1
    ⟨0, ["L"], [("id", Value.str "a")]⟩ ⟨1, ["L"], [("id", Value.str "b")]⟩
    (by decide) (by decide) (by decide)).2.1

/-! ### update_edge -/

/-- Two relationships that agree on everything except, possibly, the
binding of the "weight" property. -/
def onlyWeightChanged (r1 r2 : Relationship) : Prop :=
  r2.rid = r1.rid ∧ r2.startNid = r1.startNid ∧ r2.endNid = r1.endNid
  ∧ r2.type = r1.type
  ∧ ∀ k, k ≠ "weight" → getProp r2.props k = getProp r1.props k

/-- C8 counterexample: the "no-op" outcome on an existing edge and the
"not found" outcome on a missing edge are the very same repository result
(None in both cases), so they are not distinguishable. -/
theorem update_edge_noop_equals_not_found :
    let stc : Store := ⟨[⟨0, ["L"], [("id", Value.str "a")]⟩,
                        ⟨1, ["L"], [("id", Value.str "b")]⟩],
                       [⟨0, 0, 1, "T",
                         [("weight", Value.num 1), ("id", Value.str "e1")]⟩], 2, 1⟩
    (stc.rels.any (fun r => r.idProp = some "e1")) = true
    ∧ (update_edge stc "e1" ⟨none, none⟩).2 = none
    ∧ (update_edge stc "ghost" ⟨none, some 2⟩).2 = none
    ∧ (update_edge stc "e1" ⟨none, none⟩).2
        = (update_edge stc "ghost" ⟨none, some 2⟩).2 := by
  refine ⟨?_, ?_, ?_, ?_⟩ <;> decide

/-- C8 (amended): update_edge with no updatable field returns None — the
same value the not-found case returns, so the two outcomes are NOT
distinguishable; when a weight is supplied and the edge exists, only the
weight binding is modified (every other property, both endpoints and the
type of every relationship are unchanged) and the edge's type is never
changed in place. -/
theorem update_edge_only_weight (st : Store) (eid : String)
    (tOpt : Option String) (w : Rat) (r : Relationship)
    (hex : st.rels.find? (fun x => x.idProp = some eid) = some r) :
    update_edge st eid ⟨tOpt, none⟩ = (st, none)
    ∧ (∀ st2 : Store, (∀ r2 ∈ st2.rels, ¬ r2.idProp = some eid) →
        update_edge st2 eid ⟨tOpt, some w⟩ = (st2, none))
    ∧ (update_edge st eid ⟨tOpt, some w⟩).1.nodes = st.nodes
    ∧ List.Forall₂ onlyWeightChanged st.rels
        (update_edge st eid ⟨tOpt, some w⟩).1.rels
    ∧ (∃ out, (update_edge st eid ⟨tOpt, some w⟩).2 = some out
        ∧ out.type = r.type ∧ out.weight = w ∧ out.status = "updated") := by
  refine ⟨rfl, ?_, ?_, ?_, ?_⟩
  · intro st2 h
    have hf : st2.rels.find? (fun x => x.idProp = some eid) = none := by
      rw [List.find?_eq_none]
      intro x hx
      simpa using h x hx
    simp only [update_edge, hf]
  · simp only [update_edge, hex]
  · simp only [update_edge, hex]
    rw [List.forall₂_map_right_iff, List.forall₂_same]
    intro r2 hr2
    by_cases hc : r2.idProp = some eid
    · rw [if_pos hc]
      exact ⟨rfl, rfl, rfl, rfl, fun k hk => getProp_setProp_ne _ _ _ _ hk⟩
    · rw [if_neg hc]
      exact ⟨rfl, rfl, rfl, rfl, fun k hk => rfl⟩
  · simp only [update_edge, hex]
    exact ⟨_, rfl, rfl, rfl, rfl⟩

/-- Witness for C8 (amended) at a concrete store holding one edge "e1". -/
theorem update_edge_only_weight_witness :
    let stc : Store := ⟨[⟨0, ["L"], [("id", Value.str "a")]⟩,
                        ⟨1, ["L"], [("id", Value.str "b")]⟩],
                       [⟨0, 0, 1, "T",
                         [("weight", Value.num 1), ("id", Value.str "e1")]⟩], 2, 1⟩
    update_edge stc "e1" ⟨none, none⟩ = (stc, none)
    ∧ (∃ out, (update_edge stc "e1" ⟨none, some 2⟩).2 = some out
        ∧ out.type = "T" ∧ out.weight = 2 ∧ out.status = "updated") := by
  intro stc
  have h := update_edge_only_weight stc "e1" none 2
    ⟨0, 0, 1, "T", [("weight", Value.num 1), ("id", Value.str "e1")]⟩ (by decide)
  exact ⟨h.1, h.2.2.2.2⟩

/-! ### Deduplication, specified independently of the assembly loop -/

/-- Keep the first element for each key, in first-seen order. -/
def dedupByKey {α κ : Type} [DecidableEq κ] (key : α → κ) : List α → List α
  | [] => []
  | a :: as => a :: dedupByKey key (as.filter (fun b => ¬ key b = key a))
termination_by l => l.length
decreasing_by
  simp only [List.length_cons]
  exact Nat.lt_succ_of_le (List.length_filter_le _ _)

theorem mem_of_mem_dedupByKey {α κ : Type} [DecidableEq κ] (key : α → κ) :
    ∀ (l : List α) (x : α), x ∈ dedupByKey key l → x ∈ l
  | [], x, h => by
    rw [dedupByKey] at h
    cases h
  | a :: as, x, h => by
    rw [dedupByKey] at h
    rcases List.mem_cons.mp h with rfl | h2
    · exact List.mem_cons_self _ _
    · have hx := mem_of_mem_dedupByKey key
        (as.filter (fun b => ¬ key b = key a)) x h2
      exact List.mem_cons_of_mem _ (List.mem_of_mem_filter hx)
termination_by l => l.length
decreasing_by
  simp only [List.length_cons]
  exact Nat.lt_succ_of_le (List.length_filter_le _ _)

theorem exists_key_mem_dedupByKey {α κ : Type} [DecidableEq κ] (key : α → κ) :
    ∀ (l : List α) (x : α), x ∈ l → ∃ y ∈ dedupByKey key l, key y = key x
  | [], x, h => absurd h (List.not_mem_nil x)
  | a :: as, x, h => by
    rw [dedupByKey]
    by_cases hk : key x = key a
    · exact ⟨a, List.mem_cons_self _ _, hk.symm⟩
    · rcases List.mem_cons.mp h with rfl | h2
      · exact absurd rfl hk
      · have hx : x ∈ as.filter (fun b => ¬ key b = key a) :=
          List.mem_filter.mpr ⟨h2, by simpa using hk⟩
        obtain ⟨y, hy, hky⟩ := exists_key_mem_dedupByKey key
          (as.filter (fun b => ¬ key b = key a)) x hx
        exact ⟨y, List.mem_cons_of_mem _ hy, hky⟩
termination_by l => l.length
decreasing_by
  simp only [List.length_cons]
  exact Nat.lt_succ_of_le (List.length_filter_le _ _)

theorem nodup_keys_dedupByKey {α κ : Type} [DecidableEq κ] (key : α → κ) :
    ∀ l : List α, ((dedupByKey key l).map key).Nodup
  | [] => by
    rw [dedupByKey]
    simp
  | a :: as => by
    rw [dedupByKey, List.map_cons, List.nodup_cons]
    refine ⟨?_, nodup_keys_dedupByKey key _⟩
    intro hmem
    rw [List.mem_map] at hmem
    obtain ⟨y, hy, hkey⟩ := hmem
    have hy2 := mem_of_mem_dedupByKey key _ y hy
    have hne := (List.mem_filter.mp hy2).2
    rw [decide_eq_true_eq] at hne
    exact hne hkey
termination_by l => l.length
decreasing_by
  simp only [List.length_cons]
  exact Nat.lt_succ_of_le (List.length_filter_le _ _)

/-! ### The assembly loop equals first-wins deduplication -/

/-- The per-row registration on the already-built NodeResponse. -/
def insertResp (acc : List NodeResponse) (x : NodeResponse) : List NodeResponse :=
  if acc.any (fun nr => nr.id = x.id) then acc else acc ++ [x]

lemma insertNodeResp_eq (acc : List NodeResponse) (n : Node) :
    insertNodeResp acc n = insertResp acc (nodeToResponse n) := rfl

/-- All node sightings of a row list, in visit order. -/
def sightings (rows : List Row) : List Node :=
  rows.flatMap (fun row => [row.start, row.neighbor])

lemma foldl_insertResp_eq_dedup (xs : List NodeResponse) :
    ∀ acc : List NodeResponse,
      xs.foldl insertResp acc
        = acc ++ dedupByKey (fun nr => nr.id)
            (xs.filter (fun x => ¬ acc.any (fun nr => nr.id = x.id))) := by
  induction xs with
  | nil =>
    intro acc
    rw [List.foldl_nil, List.filter_nil, dedupByKey, List.append_nil]
  | cons x xs ih =>
    intro acc
    rw [List.foldl_cons, List.filter_cons]
    by_cases h : (acc.any fun nr => nr.id = x.id) = true
    · rw [insertResp, if_pos h]
      have hpred : (decide (¬ (acc.any fun nr => nr.id = x.id) = true)) = false := by
        simp [h]
      rw [hpred, if_neg (by simp)]
      exact ih acc
    · rw [insertResp, if_neg h]
      have hpred : (decide (¬ (acc.any fun nr => nr.id = x.id) = true)) = true := by
        simp [h]
      rw [hpred, if_pos rfl, ih (acc ++ [x]), dedupByKey]
      rw [List.append_assoc, List.singleton_append]
      have hfilters : xs.filter (fun y => ¬ (acc ++ [x]).any (fun nr => nr.id = y.id))
          = (xs.filter (fun y => ¬ acc.any (fun nr => nr.id = y.id))).filter
              (fun y => ¬ y.id = x.id) := by
        rw [List.filter_filter]
        apply List.filter_congr
        intro y hy
        have hxy : ((acc ++ [x]).any fun nr => nr.id = y.id)
            = ((acc.any fun nr => nr.id = y.id) || decide (x.id = y.id)) := by
          rw [List.any_append, List.any_cons, List.any_nil, Bool.or_false]
        rw [hxy]
        by_cases h2 : y.id = x.id
        · rw [decide_eq_true h2.symm, Bool.or_true,
            decide_eq_false (not_not_intro h2), Bool.false_and]
          simp
        · have hxf : ¬ x.id = y.id := fun hh => h2 hh.symm
          rw [decide_eq_false hxf, Bool.or_false, decide_eq_true h2, Bool.true_and]
      rw [hfilters]

lemma foldl_insertNodeResp_eq (ns : List Node) :
    ∀ acc : List NodeResponse,
      ns.foldl insertNodeResp acc = (ns.map nodeToResponse).foldl insertResp acc := by
  induction ns with
  | nil => intro acc; rfl
  | cons n ns ih =>
    intro acc
    rw [List.foldl_cons, List.map_cons, List.foldl_cons, insertNodeResp_eq]
    exact ih _

lemma assemble_fold_eq_sightings (rows : List Row) :
    ∀ acc : List NodeResponse,
      rows.foldl (fun acc row =>
        insertNodeResp (insertNodeResp acc row.start) row.neighbor) acc
      = (sightings rows).foldl insertNodeResp acc := by
  induction rows with
  | nil => intro acc; rfl
  | cons row rows ih =>
    intro acc
    have hs : sightings (row :: rows) = row.start :: row.neighbor :: sightings rows := by
      simp [sightings]
    rw [List.foldl_cons, hs, List.foldl_cons, List.foldl_cons]
    exact ih _

/-- The node list built by the assembly loop is exactly the first-wins
deduplication (by response id) of all sighted nodes in visit order. -/
lemma assembleRows_nodes (rows : List Row) :
    (assembleRows rows).nodes
      = dedupByKey (fun nr => nr.id) ((sightings rows).map nodeToResponse) := by
  show rows.foldl _ [] = _
  rw [assemble_fold_eq_sightings rows [], foldl_insertNodeResp_eq,
    foldl_insertResp_eq_dedup]
  rw [List.nil_append]
  congr 1
  apply List.filter_eq_self.mpr
  intro a _
  simp

set_option linter.unusedVariables false in
/-- C3: a search_graph result assembled from a non-empty row set has at
most one node entry per identifier; the node collection is the first-wins
deduplication of the sighted nodes in first-seen order (so label and
properties come from the first sighting, the label being the node's first
label or "Unknown" when it has none), and the relationship list is the
rows in store order, not re-sorted. -/
theorem assembleRows_dedupes_first_seen (rows : List Row) (hne : rows ≠ []) :
    ((assembleRows rows).nodes.map NodeResponse.id).Nodup
    ∧ (assembleRows rows).nodes
        = dedupByKey (fun nr => nr.id) ((sightings rows).map nodeToResponse)
    ∧ (∀ nr ∈ (assembleRows rows).nodes, ∃ n ∈ sightings rows,
        nr = nodeToResponse n ∧ nr.label = n.labels.headD "Unknown"
        ∧ nr.id = n.idString)
    ∧ (assembleRows rows).relationships = rows.map rowToEdge := by
  refine ⟨?_, assembleRows_nodes rows, ?_, rfl⟩
  · rw [assembleRows_nodes]
    exact nodup_keys_dedupByKey _ _
  · intro nr hnr
    rw [assembleRows_nodes] at hnr
    have h2 := mem_of_mem_dedupByKey _ _ _ hnr
    rw [List.mem_map] at h2
    obtain ⟨n, hn, rfl⟩ := h2
    exact ⟨n, hn, rfl, rfl, rfl⟩

/-- Witness for C3 on a one-row input. -/
theorem assembleRows_dedupes_first_seen_witness :
    ((assembleRows [⟨⟨0, ["P"], [("id", Value.str "a")]⟩,
        ⟨1, ["P"], [("id", Value.str "b")]⟩, "T", "a", "b"⟩]).nodes.map
          NodeResponse.id).Nodup
    ∧ (assembleRows [⟨⟨0, ["P"], [("id", Value.str "a")]⟩,
        ⟨1, ["P"], [("id", Value.str "b")]⟩, "T", "a", "b"⟩]).relationships
      = [⟨⟨0, ["P"], [("id", Value.str "a")]⟩,
          ⟨1, ["P"], [("id", Value.str "b")]⟩, "T", "a", "b"⟩].map rowToEdge := by
  have h := assembleRows_dedupes_first_seen
    [⟨⟨0, ["P"], [("id", Value.str "a")]⟩,
      ⟨1, ["P"], [("id", Value.str "b")]⟩, "T", "a", "b"⟩] (by decide)
  exact ⟨h.1, h.2.2.2⟩

/-! ### search_graph with no incident relationships (C2) -/

lemma search_rows_nil_of_no_incident (st : Store) (start_id : String)
    (hno : ∀ n ∈ st.nodes, n.idProp = some start_id →
      ∀ r ∈ st.rels, ¬ (r.startNid = n.nid ∨ r.endNid = n.nid)) :
    search_rows st start_id = [] := by
  unfold search_rows
  rw [List.flatMap_eq_nil_iff]
  intro s hs
  have hsm := List.mem_filter.mp hs
  have hsid : s.idProp = some start_id := by simpa using hsm.2
  have hrels : st.rels.filter
      (fun r => r.startNid = s.nid ∨ r.endNid = s.nid) = [] := by
    rw [List.filter_eq_nil_iff]
    intro r hr
    simpa using hno s hsm.1 hsid r hr
  rw [hrels]
  rfl

/-- C2: when the store holds no relationship touching any node carrying
the start identifier, search_graph returns exactly the start node with an
empty relationship list if such a node exists, and an entirely empty
result if none does — distinguishing an isolated node from an unknown
node. -/
theorem search_graph_no_rels (st : Store) (start_id : String) (d : Nat)
    (hno : ∀ n ∈ st.nodes, n.idProp = some start_id →
      ∀ r ∈ st.rels, ¬ (r.startNid = n.nid ∨ r.endNid = n.nid)) :
    ((∃ n ∈ st.nodes, n.idProp = some start_id) →
      ∃ nr, search_graph st start_id d = ⟨[nr], []⟩
        ∧ get_node st start_id = some nr ∧ nr.id = start_id)
    ∧ ((∀ n ∈ st.nodes, ¬ n.idProp = some start_id) →
      search_graph st start_id d = ⟨[], []⟩) := by
  have hrows := search_rows_nil_of_no_incident st start_id hno
  constructor
  · rintro ⟨n, hn, hid⟩
    cases hf : st.nodes.find? (fun x => x.idProp = some start_id) with
    | none =>
      rw [List.find?_eq_none] at hf
      exact absurd hid (by simpa using hf n hn)
    | some m =>
      have hm : m.idProp = some start_id := by simpa using List.find?_some hf
      refine ⟨{ id := m.idString, label := m.labels.headD "Unknown",
                properties := m.props.filter (fun kv => kv.1 ≠ "id") }, ?_, ?_, ?_⟩
      · simp only [search_graph, hrows, List.take_nil, List.isEmpty_nil, if_true,
          get_node, hf]
      · simp only [get_node, hf]
      · show m.idString = start_id
        rw [Node.idString, hm]
        rfl
  · intro hnone
    have hf : st.nodes.find? (fun x => x.idProp = some start_id) = none := by
      rw [List.find?_eq_none]
      intro x hx
      simpa using hnone x hx
    simp only [search_graph, hrows, List.take_nil, List.isEmpty_nil, if_true,
      get_node, hf]

/-- Witness for C2: a store with one isolated node "a"; searching "a"
returns just that node, searching "zz" returns the empty result. -/
theorem search_graph_no_rels_witness :
    (∃ nr, search_graph ⟨[⟨0, ["P"], [("id", Value.str "a")]⟩], [], 1, 0⟩ "a" 1
        = ⟨[nr], []⟩
      ∧ get_node ⟨[⟨0, ["P"], [("id", Value.str "a")]⟩], [], 1, 0⟩ "a" = some nr
      ∧ nr.id = "a")
    ∧ search_graph ⟨[⟨0, ["P"], [("id", Value.str "a")]⟩], [], 1, 0⟩ "zz" 1
        = ⟨[], []⟩ := by
  constructor
  · exact (search_graph_no_rels ⟨[⟨0, ["P"], [("id", Value.str "a")]⟩], [], 1, 0⟩
      "a" 1 (by intro n hn hid r hr; simp at hr)).1
      ⟨⟨0, ["P"], [("id", Value.str "a")]⟩, by simp, by decide⟩
  · exact (search_graph_no_rels ⟨[⟨0, ["P"], [("id", Value.str "a")]⟩], [], 1, 0⟩
      "zz" 1 (by intro n hn hid r hr; simp at hr)).2 (by decide)

/-! ### search_graph reports store-resolved direction (C1) -/

lemma find?_nid (ns : List Node) (hnd : (ns.map Node.nid).Nodup) (b : Node)
    (hb : b ∈ ns) : ns.find? (fun n => n.nid = b.nid) = some b := by
  induction ns with
  | nil => cases hb
  | cons a as ih =>
    rw [List.map_cons, List.nodup_cons] at hnd
    rcases List.mem_cons.mp hb with rfl | h2
    · rw [List.find?_cons_of_pos _ (by simp)]
    · by_cases ha : a.nid = b.nid
      · exfalso
        apply hnd.1
        rw [List.mem_map]
        exact ⟨b, h2, ha.symm⟩
      · rw [List.find?_cons_of_neg _ (by simpa using ha)]
        exact ih hnd.2 h2

lemma nid_inj (ns : List Node) (hnd : (ns.map Node.nid).Nodup) (a b : Node)
    (ha : a ∈ ns) (hb : b ∈ ns) (h : a.nid = b.nid) : a = b := by
  have h1 := find?_nid ns hnd a ha
  have h2 := find?_nid ns hnd b hb
  rw [h] at h1
  rw [h1] at h2
  injection h2

lemma mem_search_rows_of_incident (st : Store) (start_id : String)
    (s nbr : Node) (r : Relationship)
    (hmem : s ∈ st.nodes) (hid : s.idProp = some start_id)
    (hr : r ∈ st.rels)
    (hinc : r.startNid = s.nid ∨ r.endNid = s.nid)
    (hlook : st.lookupNid (if r.startNid = s.nid then r.endNid else r.startNid)
      = some nbr) :
    ({ start := s, neighbor := nbr, rtype := r.type,
       source_id := if r.startNid = s.nid then s.idString else nbr.idString,
       target_id := if r.startNid = s.nid then nbr.idString else s.idString }
      : Row) ∈ search_rows st start_id := by
  unfold search_rows
  rw [List.mem_flatMap]
  refine ⟨s, List.mem_filter.mpr ⟨hmem, decide_eq_true hid⟩, ?_⟩
  rw [List.mem_filterMap]
  refine ⟨r, List.mem_filter.mpr ⟨hr, decide_eq_true hinc⟩, ?_⟩
  rw [hlook]
  rfl

/-- C1: for every stored edge from node a to node b with type T, a
search_graph whose start identifier matches either endpoint (so the
undirected pattern matches the edge as outgoing from a or as incoming to
b) reports the relationship with source = a's identifier and target =
b's identifier and type = T, the direction coming from the
store-resolved startNode/endNode. -/
theorem search_graph_reports_store_direction (st : Store) (start_id : String)
    (d : Nat) (a b : Node) (r : Relationship) (wf : WFStore st)
    (ha : a ∈ st.nodes) (hb : b ∈ st.nodes) (hr : r ∈ st.rels)
    (hs : r.startNid = a.nid) (he : r.endNid = b.nid)
    (hlim : (search_rows st start_id).length ≤ 50)
    (hstart : a.idProp = some start_id ∨ b.idProp = some start_id) :
    ({ id := none, source := a.idString, target := b.idString,
       type := r.type, weight := none } : EdgeResponse)
      ∈ (search_graph st start_id d).relationships := by
  have hlookB : st.lookupNid r.endNid = some b := by
    rw [Store.lookupNid, he]
    exact find?_nid st.nodes wf.nidNodup b hb
  have hlookA : st.lookupNid r.startNid = some a := by
    rw [Store.lookupNid, hs]
    exact find?_nid st.nodes wf.nidNodup a ha
  have hrow : ∃ row ∈ search_rows st start_id,
      row.source_id = a.idString ∧ row.target_id = b.idString
      ∧ row.rtype = r.type := by
    rcases hstart with hida | hidb
    · refine ⟨_, mem_search_rows_of_incident st start_id a b r ha hida hr
        (Or.inl hs) (by rw [if_pos hs]; exact hlookB), ?_⟩
      refine ⟨?_, ?_, rfl⟩
      · show (if r.startNid = a.nid then a.idString else b.idString) = a.idString
        rw [if_pos hs]
      · show (if r.startNid = a.nid then b.idString else a.idString) = b.idString
        rw [if_pos hs]
    · by_cases hsb : r.startNid = b.nid
      · have hab : a = b :=
          nid_inj st.nodes wf.nidNodup a b ha hb (hs.symm.trans hsb)
        subst hab
        refine ⟨_, mem_search_rows_of_incident st start_id a a r ha hidb hr
          (Or.inl hs) (by rw [if_pos hs, he]
                          exact find?_nid st.nodes wf.nidNodup a ha), ?_⟩
        refine ⟨?_, ?_, rfl⟩
        · show (if r.startNid = a.nid then a.idString else a.idString) = a.idString
          rw [if_pos hs]
        · show (if r.startNid = a.nid then a.idString else a.idString) = a.idString
          rw [if_pos hs]
      · refine ⟨_, mem_search_rows_of_incident st start_id b a r hb hidb hr
          (Or.inr he) (by rw [if_neg hsb]; exact hlookA), ?_⟩
        refine ⟨?_, ?_, rfl⟩
        · show (if r.startNid = b.nid then b.idString else a.idString) = a.idString
          rw [if_neg hsb]
        · show (if r.startNid = b.nid then a.idString else b.idString) = b.idString
          rw [if_neg hsb]
  obtain ⟨row, hrowmem, hsrc, htgt, hty⟩ := hrow
  have htake : (search_rows st start_id).take 50 = search_rows st start_id :=
    List.take_of_length_le hlim
  have hempty : (search_rows st start_id).isEmpty = false :=
    List.isEmpty_eq_false.mpr (List.ne_nil_of_mem hrowmem)
  simp only [search_graph, htake, hempty, Bool.false_eq_true, if_false]
  show _ ∈ (search_rows st start_id).map rowToEdge
  rw [List.mem_map]
  refine ⟨row, hrowmem, ?_⟩
  rw [rowToEdge, hsrc, htgt, hty]

/-- Witness for C1: two nodes a, b and the stored edge a→b of type T;
searching from "b" — where the undirected pattern matches the edge as
incoming — still reports source "a", target "b". -/
theorem search_graph_reports_store_direction_witness :
    ({ id := none, source := "a", target := "b", type := "T", weight := none }
      : EdgeResponse)
      ∈ (search_graph ⟨[⟨0, ["P"], [("id", Value.str "a")]⟩,
          ⟨1, ["P"], [("id", Value.str "b")]⟩],
          [⟨0, 0, 1, "T", []⟩], 2, 1⟩ "b" 1).relationships := by
  have hwf : WFStore ⟨[⟨0, ["P"], [("id", Value.str "a")]⟩,
      ⟨1, ["P"], [("id", Value.str "b")]⟩], [⟨0, 0, 1, "T", []⟩], 2, 1⟩ := by
    refine ⟨by decide, by decide, ?_⟩
    intro n hn
    simp only [List.mem_cons, List.not_mem_nil, or_false] at hn
    rcases hn with rfl | rfl
    · exact ⟨"a", rfl⟩
    · exact ⟨"b", rfl⟩
  exact search_graph_reports_store_direction _ "b" 1
    ⟨0, ["P"], [("id", Value.str "a")]⟩ ⟨1, ["P"], [("id", Value.str "b")]⟩
    ⟨0, 0, 1, "T", []⟩ hwf (by decide) (by decide) (by decide) rfl rfl
    (by decide) (Or.inr rfl)

/-! ### Relationship endpoints are always covered by the node list (C10) -/

lemma search_rows_endpoints (st : Store) (start_id : String) (row : Row)
    (h : row ∈ search_rows st start_id) :
    (row.source_id = row.start.idString ∨ row.source_id = row.neighbor.idString)
    ∧ (row.target_id = row.start.idString ∨ row.target_id = row.neighbor.idString) := by
  unfold search_rows at h
  rw [List.mem_flatMap] at h
  obtain ⟨s, hs, h2⟩ := h
  rw [List.mem_filterMap] at h2
  obtain ⟨r, hrm, heq⟩ := h2
  rw [Option.map_eq_some'] at heq
  obtain ⟨nbr, hlk, heq2⟩ := heq
  subst heq2
  by_cases hc : r.startNid = s.nid
  · refine ⟨Or.inl ?_, Or.inr ?_⟩
    · show (if r.startNid = s.nid then s.idString else nbr.idString) = s.idString
      rw [if_pos hc]
    · show (if r.startNid = s.nid then nbr.idString else s.idString) = nbr.idString
      rw [if_pos hc]
  · refine ⟨Or.inr ?_, Or.inl ?_⟩
    · show (if r.startNid = s.nid then s.idString else nbr.idString) = nbr.idString
      rw [if_neg hc]
    · show (if r.startNid = s.nid then nbr.idString else s.idString) = s.idString
      rw [if_neg hc]

/-- C10: in every search_graph result, each relationship's source and
target identifiers are identifiers of nodes present in the returned node
list — the node set covers every relationship endpoint. -/
theorem search_graph_nodes_cover_endpoints (st : Store) (start_id : String)
    (d : Nat) :
    ∀ e ∈ (search_graph st start_id d).relationships,
      (∃ nr ∈ (search_graph st start_id d).nodes, nr.id = e.source)
      ∧ (∃ nr ∈ (search_graph st start_id d).nodes, nr.id = e.target) := by
  intro e he
  by_cases hne : ((search_rows st start_id).take 50).isEmpty
  · exfalso
    simp only [search_graph, hne, if_true] at he
    cases hg : get_node st start_id <;> rw [hg] at he <;> simp at he
  · simp only [search_graph, hne, Bool.false_eq_true, if_false, assembleRows] at he ⊢
    rw [List.mem_map] at he
    obtain ⟨row, hrowm, rfl⟩ := he
    have hrows : row ∈ search_rows st start_id := List.mem_of_mem_take hrowm
    have hst := search_rows_endpoints st start_id row hrows
    have hnodes := assembleRows_nodes ((search_rows st start_id).take 50)
    simp only [assembleRows] at hnodes
    have hcov : ∀ n0 ∈ sightings ((search_rows st start_id).take 50),
        ∃ nr ∈ ((search_rows st start_id).take 50).foldl
          (fun acc row => insertNodeResp (insertNodeResp acc row.start) row.neighbor)
          [], nr.id = n0.idString := by
      intro n0 hn0
      have hx : nodeToResponse n0
          ∈ (sightings ((search_rows st start_id).take 50)).map nodeToResponse :=
        List.mem_map_of_mem _ hn0
      obtain ⟨y, hy, hkey⟩ := exists_key_mem_dedupByKey
        (fun nr : NodeResponse => nr.id) _ _ hx
      rw [← hnodes] at hy
      exact ⟨y, hy, hkey⟩
    have hstart_mem : row.start ∈ sightings ((search_rows st start_id).take 50) := by
      rw [sightings, List.mem_flatMap]
      exact ⟨row, hrowm, by simp⟩
    have hnbr_mem : row.neighbor ∈ sightings ((search_rows st start_id).take 50) := by
      rw [sightings, List.mem_flatMap]
      exact ⟨row, hrowm, by simp⟩
    constructor
    · rcases hst.1 with h | h
      · obtain ⟨nr, hnr, hid⟩ := hcov row.start hstart_mem
        exact ⟨nr, hnr, hid.trans h.symm⟩
      · obtain ⟨nr, hnr, hid⟩ := hcov row.neighbor hnbr_mem
        exact ⟨nr, hnr, hid.trans h.symm⟩
    · rcases hst.2 with h | h
      · obtain ⟨nr, hnr, hid⟩ := hcov row.start hstart_mem
        exact ⟨nr, hnr, hid.trans h.symm⟩
      · obtain ⟨nr, hnr, hid⟩ := hcov row.neighbor hnbr_mem
        exact ⟨nr, hnr, hid.trans h.symm⟩

/-- Witness for C10 at a concrete two-node store with one edge. -/
theorem search_graph_nodes_cover_endpoints_witness :
    (∃ nr ∈ (search_graph ⟨[⟨0, ["P"], [("id", Value.str "a")]⟩,
        ⟨1, ["P"], [("id", Value.str "b")]⟩],
        [⟨0, 0, 1, "T", []⟩], 2, 1⟩ "a" 1).nodes, nr.id = "a")
    ∧ (∃ nr ∈ (search_graph ⟨[⟨0, ["P"], [("id", Value.str "a")]⟩,
        ⟨1, ["P"], [("id", Value.str "b")]⟩],
        [⟨0, 0, 1, "T", []⟩], 2, 1⟩ "a" 1).nodes, nr.id = "b") := by
  exact search_graph_nodes_cover_endpoints
    ⟨[⟨0, ["P"], [("id", Value.str "a")]⟩, ⟨1, ["P"], [("id", Value.str "b")]⟩],
     [⟨0, 0, 1, "T", []⟩], 2, 1⟩ "a" 1
    ⟨none, "a", "b", "T", none⟩ (by decide)
